import Mathlib

/-!
Verification of the waveform positioning and highlighting engine of the
`spiky` repository (`spiky/views/waveformview.py`), against its
natural-language specification.

The engine is embedded shallowly over exact rational arithmetic (`ℚ` stands
for the Python floats; all claims under scrutiny are exact algebraic facts
about the formulas, not about rounding).  NumPy arrays become Lean lists or
index-functions, and the numpy primitives used by the source
(`argsort`, `unique`, `sort`, boolean-mask filtering) are modelled by
sorted-permutation functions on lists.  Each definition mirrors one Python
function of the source file and keeps its name.
-/

namespace Spiky

/-- The two spatial arrangements (`WaveformSpatialArrangement = enum("Linear", "Geometrical")`). -/
inductive Arrangement
  | Linear
  | Geometrical
deriving DecidableEq

/-- The two superposition modes (`WaveformSuperposition = enum("Superimposed", "Separated")`). -/
inductive Superposition
  | Superimposed
  | Separated
deriving DecidableEq

/-- Module-level constant `HIGHLIGHT_CLOSE_BOXES_COUNT = 4` (waveformview.py line 47). -/
def HIGHLIGHT_CLOSE_BOXES_COUNT : ℕ := 4

/-! ## WaveformPositionManager -/

/-- State of `WaveformPositionManager`: the fields set in `__init__` and `set_info`.
`alpha`, `beta`, `box_size_min` are the constants of `__init__`; `diffxc`, `diffyc`
are the heuristic spread estimates set in `set_info` (to `sqrt(nchannels)` there;
kept as state fields here since `ℚ` has no square root).  `box_sizes` is the
per-arrangement lazy cache of box sizes. -/
structure PositionState where
  alpha : ℚ
  beta : ℚ
  box_size_min : ℚ
  nchannels : ℕ
  nclusters : ℕ
  diffxc : ℚ
  diffyc : ℚ
  spatial_arrangement : Arrangement
  superposition : Superposition
  box_sizes : Arrangement → Option (ℚ × ℚ)

/-- `WaveformPositionManager.find_box_size` (lines 336-360), with the arrangement and
superposition already resolved to their effective values (the Python `None` defaults
resolve to `self.spatial_arrangement` / `self.superposition`); returns `(w, h)`.
The `do_save` side effect does not change the returned value and is modelled by
`save_box_size` at the call sites that need it. -/
def find_box_size (st : PositionState) (sa : Arrangement) (sp : Superposition) : ℚ × ℚ :=
  match sa, sp with
  | .Linear, .Superimposed =>
      (2 / (1 + 2 * st.alpha), 2 / (st.nchannels * (1 + st.beta)))
  | .Linear, .Separated =>
      (2 / (st.nclusters * (1 + 2 * st.alpha)), 2 / (st.nchannels * (1 + 2 * st.beta)))
  | .Geometrical, .Superimposed =>
      (2 / (st.diffxc * (1 + 2 * st.beta)), 2 / (st.diffyc * (1 + 2 * st.beta)))
  | .Geometrical, .Separated =>
      (2 / ((1 + 2 * st.alpha) * (1 + 2 * st.beta) * st.nclusters * st.diffxc),
       2 / ((1 + 2 * st.beta) * st.diffyc))

/-- `WaveformPositionManager.save_box_size(w, h)` (lines 324-327) with the default
`arrangement=None`, i.e. storing under the current spatial arrangement. -/
def save_box_size (st : PositionState) (w h : ℚ) : PositionState :=
  { st with box_sizes := fun a =>
      if a = st.spatial_arrangement then some (w, h) else st.box_sizes a }

/-- `WaveformPositionManager.load_box_size()` (lines 329-334) with the default
`arrangement=None`: read the cached box size of the current arrangement, computing
it with `find_box_size` on a cache miss (the lazy save on a miss stores exactly the
value returned, so the returned value is as below). -/
def load_box_size (st : PositionState) : ℚ × ℚ :=
  match st.box_sizes st.spatial_arrangement with
  | some wh => wh
  | none => find_box_size st st.spatial_arrangement st.superposition

/-- `WaveformPositionManager.change_box_scale(dsx, dsy)` (lines 364-368): clamp each
new dimension at `box_size_min` and store via `update_arrangement(box_size=...)`,
which calls `save_box_size`.  The uniform-update side effect towards the paint
manager carries no state relevant to the claims. -/
def change_box_scale (st : PositionState) (dsx dsy : ℚ) : PositionState :=
  let wh := load_box_size st
  save_box_size st (max st.box_size_min (wh.1 + dsx)) (max st.box_size_min (wh.2 + dsy))

/-- Iterated `change_box_scale(-10, -10)` calls, as in the scale-floor scenario. -/
def iterate_change_box_scale (st : PositionState) : ℕ → PositionState
  | 0 => st
  | n + 1 => change_box_scale (iterate_change_box_scale st n) (-10) (-10)

/-- Value of `arr.min()` over one coordinate (`f`) of a nonempty list of 2-D points;
`numpy` raises on an empty array, which the caller models with `Option`. -/
def coordMin (f : ℚ × ℚ → ℚ) : List (ℚ × ℚ) → ℚ
  | [] => 0
  | p :: ps => (ps.map f).foldl min (f p)

/-- Value of `arr.max()` over one coordinate (`f`) of a nonempty list of 2-D points. -/
def coordMax (f : ℚ × ℚ → ℚ) : List (ℚ × ℚ) → ℚ
  | [] => 0
  | p :: ps => (ps.map f).foldl max (f p)

/-- The horizontal scale `ax` of `normalize_channel_positions` (lines 217-220). -/
def normAx (st : PositionState) (sa : Arrangement) (pos : List (ℚ × ℚ)) : ℚ :=
  if coordMin Prod.fst pos = coordMax Prod.fst pos then 0
  else (2 - st.nclusters * (find_box_size st sa st.superposition).1 * (1 + 2 * st.alpha)) /
    (coordMax Prod.fst pos - coordMin Prod.fst pos)

/-- The vertical scale `ay` of `normalize_channel_positions` (lines 221-224).
Note the source uses `self.alpha`, not `self.beta`, in the vertical margin term. -/
def normAy (st : PositionState) (sa : Arrangement) (pos : List (ℚ × ℚ)) : ℚ :=
  if coordMin Prod.snd pos = coordMax Prod.snd pos then 0
  else (2 - (find_box_size st sa st.superposition).2 * (1 + 2 * st.alpha)) /
    (coordMax Prod.snd pos - coordMin Prod.snd pos)

/-- The horizontal offset `bx = -.5 * ax * (xmax + xmin)` (line 227). -/
def normBx (st : PositionState) (sa : Arrangement) (pos : List (ℚ × ℚ)) : ℚ :=
  -(1 / 2) * normAx st sa pos * (coordMax Prod.fst pos + coordMin Prod.fst pos)

/-- The vertical offset `by = -.5 * ay * (ymax + ymin)` (line 228). -/
def normBy (st : PositionState) (sa : Arrangement) (pos : List (ℚ × ℚ)) : ℚ :=
  -(1 / 2) * normAy st sa pos * (coordMax Prod.snd pos + coordMin Prod.snd pos)

/-- `WaveformPositionManager.normalize_channel_positions` (lines 205-234): compute the
coordinate bounds, the box size for the requested arrangement, the affine
scales/offsets, and return the affinely transformed copy of the input.  `none`
models the `ValueError` numpy raises when taking `min`/`max` of an empty coordinate
array; the `float32` cast of `enforce_dtype` is the identity in this exact model. -/
def normalize_channel_positions (st : PositionState) (sa : Arrangement)
    (pos : List (ℚ × ℚ)) : Option (List (ℚ × ℚ)) :=
  match pos with
  | [] => none
  | _ => some (pos.map fun p =>
      (normAx st sa pos * p.1 + normBx st sa pos,
       normAy st sa pos * p.2 + normBy st sa pos))

/-- Modelled from the spec: the box WIDTH column of the closed-form table of §4.2
("Box-size formulas"), with margin ratios `α`, `β` and the geometrical spread
estimate `diffxc` —
Linear/Superimposed `2/(1+2α)`; Linear/Separated `2/(nclusters·(1+2α))`;
Geometrical/Superimposed `2/(diffxc·(1+2β))`;
Geometrical/Separated `2/((1+2α)(1+2β)·nclusters·diffxc)`. -/
def specBoxWidth (α β : ℚ) (nclusters : ℕ) (diffxc : ℚ) :
    Arrangement → Superposition → ℚ
  | .Linear, .Superimposed => 2 / (1 + 2 * α)
  | .Linear, .Separated => 2 / (nclusters * (1 + 2 * α))
  | .Geometrical, .Superimposed => 2 / (diffxc * (1 + 2 * β))
  | .Geometrical, .Separated => 2 / ((1 + 2 * α) * (1 + 2 * β) * nclusters * diffxc)

/-- Modelled from the spec: the box HEIGHT column of the same table —
Linear/Superimposed `2/(nchannels·(1+β))`; Linear/Separated `2/(nchannels·(1+2β))`;
Geometrical/Superimposed `2/(diffyc·(1+2β))`; Geometrical/Separated `2/((1+2β)·diffyc)`. -/
def specBoxHeight (β : ℚ) (nchannels : ℕ) (diffyc : ℚ) :
    Arrangement → Superposition → ℚ
  | .Linear, .Superimposed => 2 / (nchannels * (1 + β))
  | .Linear, .Separated => 2 / (nchannels * (1 + 2 * β))
  | .Geometrical, .Superimposed => 2 / (diffyc * (1 + 2 * β))
  | .Geometrical, .Separated => 2 / ((1 + 2 * β) * diffyc)

/-! ## WaveformHighlightManager -/

/-- The data visible to `WaveformHighlightManager.find_enclosed_spikes`: counts and
buffers copied from the data manager in `initialize` (lines 64-79), the box-center
matrices `Tx`, `Ty` and box size `(w, h)` from the position manager's
`get_transformation`, and the screen-to-data scale factors `sx`, `sy` of the
interaction manager.  `normalized_data` and `full_masks` are the flat point buffers
(channel-major, then reordered spike, then sample); `clusters_unique`,
`cluster_sizes_cum`, `cluster_sizes` are the data organizer's tables keyed by
absolute cluster id, used only through `get_data_position`. -/
structure HLState where
  nchannels : ℕ
  nclusters : ℕ
  nsamples : ℕ
  nspikes : ℕ
  normalized_data : ℕ → ℚ × ℚ
  full_masks : ℕ → ℚ
  clusters_unique : List ℕ
  cluster_sizes_cum : ℕ → ℕ
  cluster_sizes : ℕ → ℕ
  Tx : ℕ → ℕ → ℚ
  Ty : ℕ → ℕ → ℚ
  w : ℚ
  h : ℚ
  sx : ℚ
  sy : ℚ

/-- `WaveformDataManager.get_data_position(channel, cluster_rel)` (lines 502-511):
the contiguous range `[i0, i1)` of the given cluster's points on the given channel
in the flat reordered buffer. -/
def get_data_position (st : HLState) (channel cluster_rel : ℕ) : ℕ × ℕ :=
  let cluster := st.clusters_unique.getD cluster_rel 0
  let i0 := st.nsamples * (channel * st.nspikes + st.cluster_sizes_cum cluster)
  (i0, i0 + st.nsamples * st.cluster_sizes cluster)

/-- Entry `idx` of the flattened distance array
`dist = (np.abs(Tx - xp) * sx) ** 2 + (np.abs(Ty - yp) * sy) ** 2` (line 99);
the ravel of the `[nchannels, nclusters]` matrix puts `(channel, cluster)` at
`idx = channel * nclusters + cluster`. -/
def boxDist (st : HLState) (xp yp : ℚ) (idx : ℕ) : ℚ :=
  (|st.Tx (idx / st.nclusters) (idx % st.nclusters) - xp| * st.sx) ^ 2 +
  (|st.Ty (idx / st.nclusters) (idx % st.nclusters) - yp| * st.sy) ^ 2

/-- Comparison used to model `np.argsort` over the key function `d`: strictly
smaller key first, ties broken by index (a deterministic total order; the
distances are pairwise distinct in every concrete instance used below, so any
correct sort agrees with this one). -/
def argsortRel (d : ℕ → ℚ) (i j : ℕ) : Prop :=
  d i < d j ∨ (d i = d j ∧ i ≤ j)

instance (d : ℕ → ℚ) : DecidableRel (argsortRel d) := fun i j => by
  unfold argsortRel
  infer_instance

/-- Model of `np.argsort(dist)` for a key function on `{0, ..., n-1}`: the indices
`0, ..., n-1` sorted by increasing key. -/
def np_argsort (d : ℕ → ℚ) (n : ℕ) : List ℕ :=
  List.insertionSort (argsortRel d) (List.range n)

/-- The candidate boxes `closest = np.argsort(dist.ravel())[:HIGHLIGHT_CLOSE_BOXES_COUNT]`
(line 102), with the press point `(xp, yp)`. -/
def closestBoxes (st : HLState) (xp yp : ℚ) : List ℕ :=
  (np_argsort (boxDist st xp yp) (st.nchannels * st.nclusters)).take
    HIGHLIGHT_CLOSE_BOXES_COUNT

/-- Lines 107-127 of `find_enclosed_spikes`, for one candidate box `idx`: the
absolute indices (`np.nonzero(indices)[0] + start`) of the points of the box's
slice `[start, end)` whose mask is positive and whose two coordinates lie within
the inverse-transformed rectangle bounds, inclusive on both ends. -/
def box_enclosed_indices (st : HLState) (xmin xmax ymin ymax : ℚ) (idx : ℕ) : List ℕ :=
  let channel := idx / st.nclusters
  let cluster_rel := idx % st.nclusters
  let se := get_data_position st channel cluster_rel
  let u := st.Tx channel cluster_rel
  let v := st.Ty channel cluster_rel
  let a := st.w / 2
  let b := st.h / 2
  ((List.range (se.2 - se.1)).map (· + se.1)).filter fun i =>
    decide (0 < st.full_masks i ∧
      (xmin - u) / a ≤ (st.normalized_data i).1 ∧ (st.normalized_data i).1 ≤ (xmax - u) / a ∧
      (ymin - v) / b ≤ (st.normalized_data i).2 ∧ (st.normalized_data i).2 ≤ (ymax - v) / b)

/-- Line 129: the spike indices of one candidate box,
`np.mod(indices, nspikes * nsamples) // nsamples` applied to the absolute matched
point indices. -/
def box_spike_indices (st : HLState) (xmin xmax ymin ymax : ℚ) (idx : ℕ) : List ℕ :=
  (box_enclosed_indices st xmin xmax ymin ymax idx).map
    fun i => (i % (st.nspikes * st.nsamples)) / st.nsamples

/-- Model of `np.unique`: the sorted list of distinct values. -/
def np_unique (l : List ℕ) : List ℕ :=
  (List.insertionSort (· ≤ ·) l).dedup

/-- Model of in-place ascending `ndarray.sort()`. -/
def np_sort (l : List ℕ) : List ℕ :=
  List.insertionSort (· ≤ ·) l

/-- `WaveformHighlightManager.find_enclosed_spikes(enclosing_box)` (lines 81-133):
the press point is the first corner `(x0, y0)`; the corners are reordered into
bounds; the 4 closest boxes to the press point are candidates; their matched spike
indices are concatenated (`np.hstack`), deduplicated and sorted (`np.unique`) and
sorted again (`.sort()`). -/
def find_enclosed_spikes (st : HLState) (x0 y0 x1 y1 : ℚ) : List ℕ :=
  let xp := x0
  let yp := y0
  let xmin := min x0 x1
  let xmax := max x0 x1
  let ymin := min y0 y1
  let ymax := max y0 y1
  np_sort (np_unique ((closestBoxes st xp yp).flatMap
    fun idx => box_spike_indices st xmin xmax ymin ymax idx))

/-- Mutable state of the highlight buffer: `highlight_mask` (a flat int buffer,
conceptually of length `npoints`) and `highlighted_spikes` (lines 78-79). -/
structure HighlightBufState where
  highlight_mask : ℕ → ℕ
  highlighted_spikes : List ℕ

/-- `WaveformHighlightManager.find_indices_from_spikes(spikes)` (lines 135-148) in
the nonempty case: for each channel `c` (outer `np.tile` block), each spike `s` in
the given order, and each sample `t`, the flat point index
`c * nsamples * nspikes + s * nsamples + t`. -/
def find_indices_from_spikes (st : HLState) (spikes : List ℕ) : List ℕ :=
  (List.range st.nchannels).flatMap fun c =>
    spikes.flatMap fun s =>
      (List.range st.nsamples).map fun t =>
        c * st.nsamples * st.nspikes + s * st.nsamples + t

/-- `WaveformHighlightManager.set_highlighted_spikes(spikes)` (lines 150-169): zero
the buffer, set flag 1 at the points of the given spikes when the set is nonempty,
and pass the buffer to the paint manager unless the set is empty and was already
empty.  Returns the new state and whether the buffer-update signal
(`paint_manager.set_data`) was emitted. -/
def set_highlighted_spikes (hl : HLState) (st : HighlightBufState) (spikes : List ℕ) :
    HighlightBufState × Bool :=
  if spikes.length = 0 then
    ({ highlight_mask := fun _ => 0, highlighted_spikes := spikes },
     decide (0 < st.highlighted_spikes.length))
  else
    let ind := find_indices_from_spikes hl spikes
    ({ highlight_mask := fun i => if i ∈ ind then 1 else 0, highlighted_spikes := spikes },
     true)

/-! ## Concrete instances

Small concrete datasets used to evaluate the code on explicit inputs. -/

/-- A `PositionState` as built by `WaveformPositionManager.__init__` (lines 186-203,
`alpha = beta = .02`, `box_size_min = .01`, empty box-size cache, Linear/Separated)
followed by the count and spread assignments of `set_info` (lines 249-252); the
spread parameter `d` stands for `sqrt(nchannels)`. -/
def initPositionState (nchannels nclusters : ℕ) (d : ℚ) : PositionState where
  alpha := 1 / 50
  beta := 1 / 50
  box_size_min := 1 / 100
  nchannels := nchannels
  nclusters := nclusters
  diffxc := d
  diffyc := d
  spatial_arrangement := Arrangement.Linear
  superposition := Superposition.Separated
  box_sizes := fun _ => none

/-- Dataset of the claimed selection scenario: a single channel, a single cluster,
3 spikes with 2 samples each and masks `[1, 1, 0]` (so the flat mask buffer is 1 on
points `0..3`, the points of spikes 0 and 1, and 0 on points `4..5`, the points of
spike 2).  The waveform coordinates are all `(0, 0)`, the box is centered at the
origin with size `(2, 2)` and unit screen scales. -/
def maskScenarioState : HLState where
  nchannels := 1
  nclusters := 1
  nsamples := 2
  nspikes := 3
  normalized_data := fun _ => (0, 0)
  full_masks := fun i => if i < 4 then 1 else 0
  clusters_unique := [0]
  cluster_sizes_cum := fun _ => 0
  cluster_sizes := fun _ => 3
  Tx := fun _ _ => 0
  Ty := fun _ _ => 0
  w := 2
  h := 2
  sx := 1
  sy := 1

/-- Dataset with one channel and 5 clusters of one spike each (one sample per
spike), every mask 1, cluster `k`'s box centered at `(k, 0)`: 5 boxes, all points
at local coordinates `(0, 0)`. -/
def fiveClusterState : HLState where
  nchannels := 1
  nclusters := 5
  nsamples := 1
  nspikes := 5
  normalized_data := fun _ => (0, 0)
  full_masks := fun _ => 1
  clusters_unique := [0, 1, 2, 3, 4]
  cluster_sizes_cum := fun c => c
  cluster_sizes := fun _ => 1
  Tx := fun _ k => (k : ℚ)
  Ty := fun _ _ => 0
  w := 2
  h := 2
  sx := 1
  sy := 1

/-- Dataset with 5 channels, one cluster, 2 spikes with one sample each; channel
`c`'s box is centered at `(0, c)`; spike 0 is unmasked only on channel 0 (flat
point 0) and spike 1 only on channel 4 (flat point 9); all points at local
coordinates `(0, 0)`. -/
def cornerSwapState : HLState where
  nchannels := 5
  nclusters := 1
  nsamples := 1
  nspikes := 2
  normalized_data := fun _ => (0, 0)
  full_masks := fun i => if i = 0 ∨ i = 9 then 1 else 0
  clusters_unique := [0]
  cluster_sizes_cum := fun _ => 0
  cluster_sizes := fun _ => 2
  Tx := fun _ _ => 0
  Ty := fun c _ => (c : ℚ)
  w := 2
  h := 2
  sx := 1
  sy := 1

/-- Dataset with one channel, one cluster and a single one-sample spike at local
coordinates `(0, 0)` with mask 1. -/
def singleSpikeState : HLState where
  nchannels := 1
  nclusters := 1
  nsamples := 1
  nspikes := 1
  normalized_data := fun _ => (0, 0)
  full_masks := fun _ => 1
  clusters_unique := [0]
  cluster_sizes_cum := fun _ => 0
  cluster_sizes := fun _ => 1
  Tx := fun _ _ => 0
  Ty := fun _ _ => 0
  w := 2
  h := 2
  sx := 1
  sy := 1

/-- An initial highlight-buffer state: all-zero mask, no highlighted spikes
(`initialize`, lines 78-79). -/
def initHighlightBufState : HighlightBufState where
  highlight_mask := fun _ => 0
  highlighted_spikes := []

end Spiky

namespace Spiky

/-! ## Membership characterizations of the selection resolver -/

/-- The point range and the point-wise test of one candidate box: a flat index `i`
is matched exactly when it lies in the box's contiguous slice and its mask is
positive and both coordinates lie within the inverse-transformed bounds. -/
theorem mem_box_enclosed_indices (st : HLState) (xmin xmax ymin ymax : ℚ) (idx i : ℕ) :
    i ∈ box_enclosed_indices st xmin xmax ymin ymax idx ↔
      (get_data_position st (idx / st.nclusters) (idx % st.nclusters)).1 ≤ i ∧
      i < (get_data_position st (idx / st.nclusters) (idx % st.nclusters)).2 ∧
      (0 < st.full_masks i ∧
        (xmin - st.Tx (idx / st.nclusters) (idx % st.nclusters)) / (st.w / 2) ≤
          (st.normalized_data i).1 ∧
        (st.normalized_data i).1 ≤
          (xmax - st.Tx (idx / st.nclusters) (idx % st.nclusters)) / (st.w / 2) ∧
        (ymin - st.Ty (idx / st.nclusters) (idx % st.nclusters)) / (st.h / 2) ≤
          (st.normalized_data i).2 ∧
        (st.normalized_data i).2 ≤
          (ymax - st.Ty (idx / st.nclusters) (idx % st.nclusters)) / (st.h / 2)) := by
  obtain ⟨i0, m, h0⟩ :
      ∃ i0 m, get_data_position st (idx / st.nclusters) (idx % st.nclusters) = (i0, i0 + m) :=
    ⟨_, _, rfl⟩
  simp only [box_enclosed_indices, h0, List.mem_filter, List.mem_map, List.mem_range,
    decide_eq_true_eq]
  constructor
  · rintro ⟨⟨j, hj, rfl⟩, hP⟩
    exact ⟨by omega, by omega, hP⟩
  · rintro ⟨h1, h2, hP⟩
    exact ⟨⟨i - i0, by omega, by omega⟩, hP⟩

/-- Membership in the result of `find_enclosed_spikes`: a spike index is returned
exactly when some candidate box contributes it. -/
theorem mem_find_enclosed_spikes (st : HLState) (x0 y0 x1 y1 : ℚ) (s : ℕ) :
    s ∈ find_enclosed_spikes st x0 y0 x1 y1 ↔
      ∃ idx ∈ closestBoxes st x0 y0,
        s ∈ box_spike_indices st (min x0 x1) (max x0 x1) (min y0 y1) (max y0 y1) idx := by
  unfold find_enclosed_spikes np_sort np_unique
  rw [(List.perm_insertionSort _ _).mem_iff, List.mem_dedup,
    (List.perm_insertionSort _ _).mem_iff, List.mem_flatMap]

/-- Every candidate box index is a valid ravel index of the `[nchannels, nclusters]`
distance matrix. -/
theorem mem_closestBoxes_lt (st : HLState) (xp yp : ℚ) (idx : ℕ)
    (h : idx ∈ closestBoxes st xp yp) : idx < st.nchannels * st.nclusters := by
  unfold closestBoxes np_argsort at h
  have h' := List.mem_of_mem_take h
  rw [(List.perm_insertionSort _ _).mem_iff] at h'
  exact List.mem_range.mp h'

end Spiky

namespace Spiky

/-! ## Claims about the selection resolver -/

/-- C4: in `find_enclosed_spikes`, every matched point index `i` in the flat
reordered buffer is mapped to the spike index `(i mod (nspikes*nsamples)) / nsamples`,
which equals `(i / nsamples) mod nspikes` for every `i` (discounting the channel
offset); the returned array is the union over the candidate boxes, deduplicated and
sorted in ascending order. -/
theorem C4_spike_index_mapping (st : HLState) (x0 y0 x1 y1 : ℚ) :
    (find_enclosed_spikes st x0 y0 x1 y1).Sorted (· ≤ ·) ∧
    (find_enclosed_spikes st x0 y0 x1 y1).Nodup ∧
    (∀ s, s ∈ find_enclosed_spikes st x0 y0 x1 y1 ↔
      ∃ idx ∈ closestBoxes st x0 y0,
        ∃ i ∈ box_enclosed_indices st (min x0 x1) (max x0 x1) (min y0 y1) (max y0 y1) idx,
          s = i / st.nsamples % st.nspikes) ∧
    (∀ i : ℕ, i % (st.nspikes * st.nsamples) / st.nsamples = i / st.nsamples % st.nspikes) := by
  have hid : ∀ i : ℕ,
      i % (st.nspikes * st.nsamples) / st.nsamples = i / st.nsamples % st.nspikes := by
    intro i
    rw [mul_comm, Nat.mod_mul_right_div_self]
  refine ⟨List.sorted_insertionSort _ _, ?_, ?_, hid⟩
  · exact (List.perm_insertionSort _ _).nodup_iff.mpr (List.nodup_dedup _)
  · intro s
    rw [mem_find_enclosed_spikes]
    unfold box_spike_indices
    simp only [List.mem_map]
    constructor
    · rintro ⟨idx, hidx, i, hi, rfl⟩
      exact ⟨idx, hidx, i, hi, hid i⟩
    · rintro ⟨idx, hidx, i, hi, rfl⟩
      exact ⟨idx, hidx, i, hi, hid i⟩

end Spiky

namespace Spiky

/-- C3: in `find_enclosed_spikes`, a sample point of a candidate box is counted as
enclosed if and only if its mask value is strictly greater than 0 and both of its
local coordinates lie within the inverse-transformed rectangle bounds, inclusive on
both ends; consequently, in the single-channel single-cluster dataset with 3 spikes
of masks `[1, 1, 0]`, the masked-out spike (index 2) never appears in the result,
for every rectangle. -/
theorem C3_mask_and_bounds_gate :
    (∀ (st : HLState) (xmin xmax ymin ymax : ℚ) (idx i : ℕ),
      i ∈ box_enclosed_indices st xmin xmax ymin ymax idx ↔
        (get_data_position st (idx / st.nclusters) (idx % st.nclusters)).1 ≤ i ∧
        i < (get_data_position st (idx / st.nclusters) (idx % st.nclusters)).2 ∧
        (0 < st.full_masks i ∧
          (xmin - st.Tx (idx / st.nclusters) (idx % st.nclusters)) / (st.w / 2) ≤
            (st.normalized_data i).1 ∧
          (st.normalized_data i).1 ≤
            (xmax - st.Tx (idx / st.nclusters) (idx % st.nclusters)) / (st.w / 2) ∧
          (ymin - st.Ty (idx / st.nclusters) (idx % st.nclusters)) / (st.h / 2) ≤
            (st.normalized_data i).2 ∧
          (st.normalized_data i).2 ≤
            (ymax - st.Ty (idx / st.nclusters) (idx % st.nclusters)) / (st.h / 2))) ∧
    (∀ x0 y0 x1 y1 : ℚ, 2 ∉ find_enclosed_spikes maskScenarioState x0 y0 x1 y1) := by
  refine ⟨mem_box_enclosed_indices, ?_⟩
  intro x0 y0 x1 y1 h
  rw [mem_find_enclosed_spikes] at h
  obtain ⟨idx, hidx, hmem⟩ := h
  unfold box_spike_indices at hmem
  simp only [List.mem_map] at hmem
  obtain ⟨i, hi, heq⟩ := hmem
  rw [mem_box_enclosed_indices] at hi
  obtain ⟨-, -, hmask, -⟩ := hi
  have hi4 : i < 4 := by
    by_contra hc
    simp [maskScenarioState, hc] at hmask
  simp only [maskScenarioState] at heq
  omega

end Spiky

namespace Spiky

/-- C5: selection monotonicity.  For two rectangles sharing the same press point
(their first corner), if the normalized bounds of the second contain those of the
first, then with positive box dimensions and `nclusters` at most the candidate
count (so candidate-set truncation cannot occur), every spike returned for the
first rectangle is also returned for the second. -/
theorem C5_selection_monotonicity (st : HLState) (x0 y0 x1 y1 x1' y1' : ℚ)
    (hw : 0 < st.w) (hh : 0 < st.h)
    (hK : st.nclusters ≤ HIGHLIGHT_CLOSE_BOXES_COUNT)
    (hxlo : min x0 x1' ≤ min x0 x1) (hxhi : max x0 x1 ≤ max x0 x1')
    (hylo : min y0 y1' ≤ min y0 y1) (hyhi : max y0 y1 ≤ max y0 y1') :
    ∀ s ∈ find_enclosed_spikes st x0 y0 x1 y1,
      s ∈ find_enclosed_spikes st x0 y0 x1' y1' := by
  intro s hs
  rw [mem_find_enclosed_spikes] at hs ⊢
  obtain ⟨idx, hidx, hsbox⟩ := hs
  refine ⟨idx, hidx, ?_⟩
  unfold box_spike_indices at hsbox ⊢
  simp only [List.mem_map] at hsbox ⊢
  obtain ⟨i, hi, heq⟩ := hsbox
  refine ⟨i, ?_, heq⟩
  rw [mem_box_enclosed_indices] at hi ⊢
  obtain ⟨h1, h2, hmask, hx1, hx2, hy1, hy2⟩ := hi
  have ha : 0 < st.w / 2 := by positivity
  have hb : 0 < st.h / 2 := by positivity
  refine ⟨h1, h2, hmask, ?_, ?_, ?_, ?_⟩
  · exact le_trans (by gcongr) hx1
  · exact le_trans hx2 (by gcongr)
  · exact le_trans (by gcongr) hy1
  · exact le_trans hy2 (by gcongr)

end Spiky

namespace Spiky

/-- C1, evaluated at a failing input: with one channel and 5 clusters (5 boxes), the
claimed candidate count `K = max(4, nclusters) = 5` would examine every box, but the
code slices `np.argsort(dist)[:HIGHLIGHT_CLOSE_BOXES_COUNT]`, examining exactly 4
boxes: box 4 is dropped, and its unmasked spike 4 — which the rectangle
`(0, 0, 4, 1)` encloses, as the last conjunct shows — is missing from the result.
The comment above the slice (lines 100-101) documents the `max(4, nclusters)`
intent, so the slice contradicts the code's own documentation. -/
theorem C1_candidate_truncation :
    closestBoxes fiveClusterState 0 0 = [0, 1, 2, 3] ∧
    fiveClusterState.nclusters = 5 ∧
    find_enclosed_spikes fiveClusterState 0 0 4 1 = [0, 1, 2, 3] ∧
    4 ∈ box_spike_indices fiveClusterState 0 4 0 1 4 := by
  refine ⟨?_, rfl, ?_, ?_⟩ <;>
    norm_num [find_enclosed_spikes, np_sort, np_unique, closestBoxes, np_argsort, boxDist,
      argsortRel, box_spike_indices, box_enclosed_indices, get_data_position, fiveClusterState,
      HIGHLIGHT_CLOSE_BOXES_COUNT, List.range_succ, List.insertionSort, List.orderedInsert,
      List.filter_cons, List.dedup_cons_of_mem, List.dedup_cons_of_not_mem]

/-- C10: `find_enclosed_spikes` derives its press point from the first corner of the
rectangle, so swapping the two corners — which leaves the normalized bounds
unchanged — can change the candidate-box ranking and hence the result: in the
5-channel dataset, the rectangle given as `(0,0,0,4)` returns spike 0 while the
same rectangle given as `(0,4,0,0)` returns spike 1, the candidate sets being
`[0,1,2,3]` and `[4,3,2,1]` respectively. -/
theorem C10_corner_swap_asymmetry :
    find_enclosed_spikes cornerSwapState 0 0 0 4 ≠
      find_enclosed_spikes cornerSwapState 0 4 0 0 ∧
    closestBoxes cornerSwapState 0 0 ≠ closestBoxes cornerSwapState 0 4 := by
  have h1 : find_enclosed_spikes cornerSwapState 0 0 0 4 = [0] ∧
      find_enclosed_spikes cornerSwapState 0 4 0 0 = [1] ∧
      closestBoxes cornerSwapState 0 0 = [0, 1, 2, 3] ∧
      closestBoxes cornerSwapState 0 4 = [4, 3, 2, 1] := by
    refine ⟨?_, ?_, ?_, ?_⟩ <;>
      norm_num [find_enclosed_spikes, np_sort, np_unique, closestBoxes, np_argsort, boxDist,
        argsortRel, box_spike_indices, box_enclosed_indices, get_data_position,
        cornerSwapState, HIGHLIGHT_CLOSE_BOXES_COUNT, List.range_succ, List.insertionSort,
        List.orderedInsert, List.filter_cons, List.dedup_cons_of_mem,
        List.dedup_cons_of_not_mem]
  obtain ⟨h1, h2, h3, h4⟩ := h1
  rw [h1, h2, h3, h4]
  exact ⟨by simp, by simp⟩

end Spiky

namespace Spiky

/-! ## Claims about the layout engine -/

/-- Loading the box size after a `change_box_scale` yields the clamped update of the
previously loaded size. -/
theorem load_box_size_change_box_scale (st : PositionState) (dsx dsy : ℚ) :
    load_box_size (change_box_scale st dsx dsy) =
      (max st.box_size_min ((load_box_size st).1 + dsx),
       max st.box_size_min ((load_box_size st).2 + dsy)) := by
  unfold change_box_scale save_box_size
  unfold load_box_size
  simp

/-- Clamped decrease steps compose: clamping at `m`, then subtracting `c ≥ 0` and
clamping again, equals clamping the total decrease. -/
theorem max_clamp_step (m x c : ℚ) (hc : 0 ≤ c) : max m (max m x - c) = max m (x - c) := by
  rcases le_total m x with h | h
  · rw [max_eq_right h]
  · rw [max_eq_left h, max_eq_left (by linarith : m - c ≤ m),
      max_eq_left (by linarith : x - c ≤ m)]

/-- Repeated `change_box_scale` calls do not change the `box_size_min` floor. -/
theorem iterate_change_box_scale_box_size_min (st : PositionState) (n : ℕ) :
    (iterate_change_box_scale st n).box_size_min = st.box_size_min := by
  induction n with
  | zero => rfl
  | succ n ih => exact ih

/-- One more `-10` step on a clamped value extends the clamped total decrease. -/
theorem max_clamp_iterate_step (m a k : ℚ) :
    max m (max m (a - 10 * k) + (-10)) = max m (a - 10 * (k + 1)) := by
  have h : max m (a - 10 * k) + (-10) = max m (a - 10 * k) - 10 := by ring
  rw [h, max_clamp_step m (a - 10 * k) 10 (by norm_num)]
  congr 1
  ring

/-- Closed form of `n + 1` iterations of `change_box_scale(-10, -10)`. -/
theorem load_box_size_iterate_succ (st : PositionState) (n : ℕ) :
    load_box_size (iterate_change_box_scale st (n + 1)) =
      (max st.box_size_min ((load_box_size st).1 - 10 * ((n : ℚ) + 1)),
       max st.box_size_min ((load_box_size st).2 - 10 * ((n : ℚ) + 1))) := by
  induction n with
  | zero =>
      show load_box_size (change_box_scale st (-10) (-10)) = _
      rw [load_box_size_change_box_scale]
      simp only [Prod.mk.injEq, Nat.cast_zero]
      constructor <;> (congr 1; ring)
  | succ n ih =>
      show load_box_size (change_box_scale (iterate_change_box_scale st (n + 1)) (-10) (-10)) = _
      rw [load_box_size_change_box_scale, ih, iterate_change_box_scale_box_size_min]
      simp only [Prod.mk.injEq, Nat.cast_succ]
      exact ⟨max_clamp_iterate_step _ _ _, max_clamp_iterate_step _ _ _⟩

/-- C7: `change_box_scale` clamps each box dimension at the floor `box_size_min` and
never rejects a request: the new size is always
`(max(box_size_min, w+dsx), max(box_size_min, h+dsy))`; after `n ≥ 1` repeated
`change_box_scale(-10,-10)` calls the size is the clamped total decrease, hence
never below the floor, and from some repetition count on it is exactly
`(box_size_min, box_size_min)`. -/
theorem C7_change_box_scale_clamps (st : PositionState) (n : ℕ) (hn : 1 ≤ n) :
    (∀ dsx dsy : ℚ, load_box_size (change_box_scale st dsx dsy) =
        (max st.box_size_min ((load_box_size st).1 + dsx),
         max st.box_size_min ((load_box_size st).2 + dsy))) ∧
    load_box_size (iterate_change_box_scale st n) =
      (max st.box_size_min ((load_box_size st).1 - 10 * (n : ℚ)),
       max st.box_size_min ((load_box_size st).2 - 10 * (n : ℚ))) ∧
    st.box_size_min ≤ (load_box_size (iterate_change_box_scale st n)).1 ∧
    st.box_size_min ≤ (load_box_size (iterate_change_box_scale st n)).2 ∧
    ∃ N : ℕ, ∀ k : ℕ, N ≤ k →
      load_box_size (iterate_change_box_scale st k) = (st.box_size_min, st.box_size_min) := by
  obtain ⟨n', rfl⟩ : ∃ n', n = n' + 1 := ⟨n - 1, by omega⟩
  have hclosed : load_box_size (iterate_change_box_scale st (n' + 1)) =
      (max st.box_size_min ((load_box_size st).1 - 10 * ((n' + 1 : ℕ) : ℚ)),
       max st.box_size_min ((load_box_size st).2 - 10 * ((n' + 1 : ℕ) : ℚ))) := by
    rw [load_box_size_iterate_succ]
    push_cast
    rfl
  refine ⟨load_box_size_change_box_scale st, hclosed, ?_, ?_, ?_⟩
  · rw [hclosed]
    exact le_max_left _ _
  · rw [hclosed]
    exact le_max_left _ _
  · obtain ⟨N1, hN1⟩ := exists_nat_gt (((load_box_size st).1 - st.box_size_min) / 10)
    obtain ⟨N2, hN2⟩ := exists_nat_gt (((load_box_size st).2 - st.box_size_min) / 10)
    refine ⟨N1 + N2 + 1, fun k hk => ?_⟩
    obtain ⟨k', rfl⟩ : ∃ k', k = k' + 1 := ⟨k - 1, by omega⟩
    rw [load_box_size_iterate_succ]
    have hc1 : (N1 : ℚ) ≤ (k' : ℚ) + 1 := by
      have h : N1 ≤ k' + 1 := by omega
      exact_mod_cast h
    have hc2 : (N2 : ℚ) ≤ (k' : ℚ) + 1 := by
      have h : N2 ≤ k' + 1 := by omega
      exact_mod_cast h
    have hd1 : (load_box_size st).1 - st.box_size_min < N1 * 10 :=
      (div_lt_iff (by norm_num)).mp hN1
    have hd2 : (load_box_size st).2 - st.box_size_min < N2 * 10 :=
      (div_lt_iff (by norm_num)).mp hN2
    simp only [Prod.mk.injEq]
    exact ⟨max_eq_left (by linarith), max_eq_left (by linarith)⟩

/-- C6: `find_box_size` returns exactly the closed-form widths and heights of the
spec's table for each (arrangement, superposition) pair, with
`diffxc = diffyc = d` where `d` stands for `sqrt(nchannels)` (`d * d = nchannels`). -/
theorem C6_box_size_formulas (st : PositionState) (d : ℚ)
    (hx : st.diffxc = d) (hy : st.diffyc = d) (hsq : d * d = (st.nchannels : ℚ))
    (sa : Arrangement) (sp : Superposition) :
    find_box_size st sa sp =
      (specBoxWidth st.alpha st.beta st.nclusters d sa sp,
       specBoxHeight st.beta st.nchannels d sa sp) := by
  cases sa <;> cases sp <;> simp [find_box_size, specBoxWidth, specBoxHeight, hx, hy]

end Spiky

namespace Spiky

/-- C2: in `normalize_channel_positions`, for inputs with a non-degenerate vertical
range and the program's margin constants `alpha = beta = .02` (set in `__init__` and
never mutated), the vertical affine pair `(ay, by)` makes the transformed y-range
have length exactly `2 - h·(1+2β)` and be centered at 0, and the function returns
the affinely transformed list.  (The source computes `ay` with `self.alpha`; with
the program's constants this coincides with the claimed `β` form.) -/
theorem C2_vertical_fit (st : PositionState) (sa : Arrangement) (pos : List (ℚ × ℚ))
    (hα : st.alpha = 1 / 50) (hβ : st.beta = 1 / 50) (hpos : pos ≠ [])
    (hy : coordMin Prod.snd pos ≠ coordMax Prod.snd pos) :
    (normAy st sa pos * coordMax Prod.snd pos + normBy st sa pos) -
      (normAy st sa pos * coordMin Prod.snd pos + normBy st sa pos) =
      2 - (find_box_size st sa st.superposition).2 * (1 + 2 * st.beta) ∧
    (normAy st sa pos * coordMax Prod.snd pos + normBy st sa pos) +
      (normAy st sa pos * coordMin Prod.snd pos + normBy st sa pos) = 0 ∧
    normalize_channel_positions st sa pos = some (pos.map fun p =>
      (normAx st sa pos * p.1 + normBx st sa pos,
       normAy st sa pos * p.2 + normBy st sa pos)) := by
  refine ⟨?_, ?_, ?_⟩
  · unfold normAy
    rw [if_neg hy, hα, hβ]
    have hne : coordMax Prod.snd pos - coordMin Prod.snd pos ≠ 0 :=
      sub_ne_zero.mpr (Ne.symm hy)
    field_simp
    ring
  · unfold normBy
    ring
  · unfold normalize_channel_positions
    cases pos with
    | nil => exact absurd rfl hpos
    | cons p ps => rfl

/-- C9: degenerate geometry is non-fatal.  For every nonempty channel-coordinate
input, a collapsed range on an axis (`xmin = xmax` or `ymin = ymax`) makes the
corresponding affine scale factor 0, and `normalize_channel_positions` still
returns a result (no error path). -/
theorem C9_degenerate_geometry (st : PositionState) (sa : Arrangement)
    (pos : List (ℚ × ℚ)) (hpos : pos ≠ []) :
    (coordMin Prod.fst pos = coordMax Prod.fst pos → normAx st sa pos = 0) ∧
    (coordMin Prod.snd pos = coordMax Prod.snd pos → normAy st sa pos = 0) ∧
    normalize_channel_positions st sa pos = some (pos.map fun p =>
      (normAx st sa pos * p.1 + normBx st sa pos,
       normAy st sa pos * p.2 + normBy st sa pos)) := by
  refine ⟨fun h => ?_, fun h => ?_, ?_⟩
  · unfold normAx
    rw [if_pos h]
  · unfold normAy
    rw [if_pos h]
  · unfold normalize_channel_positions
    cases pos with
    | nil => exact absurd rfl hpos
    | cons p ps => rfl

/-! ## Claims about the highlight buffer manager -/

/-- Membership in the index list of `find_indices_from_spikes`: exactly the flat
points of the given spikes, on every channel and sample. -/
theorem mem_find_indices_from_spikes (hl : HLState) (S : List ℕ) (i : ℕ) :
    i ∈ find_indices_from_spikes hl S ↔
      ∃ c < hl.nchannels, ∃ s ∈ S, ∃ t < hl.nsamples,
        i = c * hl.nsamples * hl.nspikes + s * hl.nsamples + t := by
  unfold find_indices_from_spikes
  simp only [List.mem_flatMap, List.mem_map, List.mem_range]
  constructor
  · rintro ⟨c, hc, s, hs, t, ht, rfl⟩
    exact ⟨c, hc, s, hs, t, ht, rfl⟩
  · rintro ⟨c, hc, s, hs, t, ht, rfl⟩
    exact ⟨c, hc, s, hs, t, ht, rfl⟩

/-- C8: highlight idempotence.  Calling `set_highlighted_spikes(S)` twice in a row
leaves the highlight buffer identical after both calls; after either call the
buffer is 1 exactly at the points of the spikes of `S` (and 0 everywhere else);
and when `S` is empty both times, the second call emits no buffer-update signal. -/
theorem C8_highlight_idempotence (hl : HLState) (st : HighlightBufState) (S : List ℕ)
    (hv : ∀ s ∈ S, s < hl.nspikes) :
    (set_highlighted_spikes hl (set_highlighted_spikes hl st S).1 S).1.highlight_mask =
      (set_highlighted_spikes hl st S).1.highlight_mask ∧
    (∀ i, (set_highlighted_spikes hl st S).1.highlight_mask i = 1 ↔
      ∃ c < hl.nchannels, ∃ s ∈ S, ∃ t < hl.nsamples,
        i = c * hl.nsamples * hl.nspikes + s * hl.nsamples + t) ∧
    (∀ i, (set_highlighted_spikes hl st S).1.highlight_mask i ≠ 1 →
      (set_highlighted_spikes hl st S).1.highlight_mask i = 0) ∧
    (S = [] → (set_highlighted_spikes hl (set_highlighted_spikes hl st S).1 S).2 = false) := by
  by_cases hS : S.length = 0
  · have hSe : S = [] := List.length_eq_zero.mp hS
    subst hSe
    refine ⟨rfl, fun i => ?_, fun i => ?_, fun _ => ?_⟩
    · simp [set_highlighted_spikes]
    · simp [set_highlighted_spikes]
    · simp [set_highlighted_spikes]
  · have hmaskp : ∀ j, (set_highlighted_spikes hl st S).1.highlight_mask j =
        if j ∈ find_indices_from_spikes hl S then 1 else 0 := by
      intro j
      simp [set_highlighted_spikes, hS]
    refine ⟨?_, fun i => ?_, fun i hne => ?_, fun hSe => absurd (by rw [hSe]; rfl) hS⟩
    · simp [set_highlighted_spikes, hS]
    · rw [hmaskp i]
      by_cases hmem : i ∈ find_indices_from_spikes hl S
      · rw [if_pos hmem]
        exact iff_of_true rfl ((mem_find_indices_from_spikes hl S i).mp hmem)
      · rw [if_neg hmem]
        exact iff_of_false (by norm_num)
          fun hex => hmem ((mem_find_indices_from_spikes hl S i).mpr hex)
    · rw [hmaskp i] at hne ⊢
      by_cases hmem : i ∈ find_indices_from_spikes hl S
      · exact absurd (if_pos hmem) hne
      · exact if_neg hmem

end Spiky

namespace Spiky

/-! ## Concrete witnesses -/

/-- Witness for C2 at the default-constants state with channels at `(0,0)` and
`(0,1)`: the transformed y-range has the claimed length. -/
theorem C2_vertical_fit_witness :
    (normAy (initPositionState 2 1 1) Arrangement.Linear [(0, 0), (0, 1)] *
        coordMax Prod.snd [(0, 0), (0, 1)] +
        normBy (initPositionState 2 1 1) Arrangement.Linear [(0, 0), (0, 1)]) -
      (normAy (initPositionState 2 1 1) Arrangement.Linear [(0, 0), (0, 1)] *
        coordMin Prod.snd [(0, 0), (0, 1)] +
        normBy (initPositionState 2 1 1) Arrangement.Linear [(0, 0), (0, 1)]) =
      2 - (find_box_size (initPositionState 2 1 1) Arrangement.Linear
        (initPositionState 2 1 1).superposition).2 *
        (1 + 2 * (initPositionState 2 1 1).beta) :=
  (C2_vertical_fit (initPositionState 2 1 1) Arrangement.Linear [(0, 0), (0, 1)]
    rfl rfl (by simp) (by norm_num [coordMin, coordMax])).1

/-- Witness for C5 on the one-spike dataset: the spike selected by the rectangle
`(-1,-1,1,1)` is also selected by the enlarged rectangle `(-1,-1,2,2)`. -/
theorem C5_selection_monotonicity_witness :
    0 ∈ find_enclosed_spikes singleSpikeState (-1) (-1) 2 2 := by
  refine C5_selection_monotonicity singleSpikeState (-1) (-1) 1 1 2 2
    (by norm_num [singleSpikeState]) (by norm_num [singleSpikeState])
    (by norm_num [singleSpikeState, HIGHLIGHT_CLOSE_BOXES_COUNT])
    (by norm_num) (by norm_num) (by norm_num) (by norm_num) 0 ?_
  norm_num [find_enclosed_spikes, np_sort, np_unique, closestBoxes, np_argsort, boxDist,
    argsortRel, box_spike_indices, box_enclosed_indices, get_data_position, singleSpikeState,
    HIGHLIGHT_CLOSE_BOXES_COUNT, List.range_succ, List.insertionSort, List.orderedInsert,
    List.filter_cons]

/-- Witness for C6 at `nchannels = 4`, `nclusters = 3`, spread `d = 2` (so
`d * d = nchannels`), in the Geometrical/Separated mode. -/
theorem C6_box_size_formulas_witness :
    find_box_size (initPositionState 4 3 2) Arrangement.Geometrical
        Superposition.Separated =
      (specBoxWidth (initPositionState 4 3 2).alpha (initPositionState 4 3 2).beta
        (initPositionState 4 3 2).nclusters 2 Arrangement.Geometrical
        Superposition.Separated,
       specBoxHeight (initPositionState 4 3 2).beta (initPositionState 4 3 2).nchannels 2
        Arrangement.Geometrical Superposition.Separated) :=
  C6_box_size_formulas (initPositionState 4 3 2) 2 rfl rfl
    (by norm_num [initPositionState]) Arrangement.Geometrical Superposition.Separated

/-- Witness for C7 at the default-constants state after one
`change_box_scale(-10,-10)` call. -/
theorem C7_change_box_scale_clamps_witness :
    load_box_size (iterate_change_box_scale (initPositionState 4 3 2) 1) =
      (max (initPositionState 4 3 2).box_size_min
        ((load_box_size (initPositionState 4 3 2)).1 - 10 * ((1 : ℕ) : ℚ)),
       max (initPositionState 4 3 2).box_size_min
        ((load_box_size (initPositionState 4 3 2)).2 - 10 * ((1 : ℕ) : ℚ))) :=
  (C7_change_box_scale_clamps (initPositionState 4 3 2) 1 (le_refl 1)).2.1

/-- Witness for C8 on the mask-scenario dataset with `S = [0]`: the buffer is
unchanged by the repeated call. -/
theorem C8_highlight_idempotence_witness :
    (set_highlighted_spikes maskScenarioState
        (set_highlighted_spikes maskScenarioState initHighlightBufState [0]).1
        [0]).1.highlight_mask =
      (set_highlighted_spikes maskScenarioState initHighlightBufState [0]).1.highlight_mask :=
  (C8_highlight_idempotence maskScenarioState initHighlightBufState [0]
    (by simp [maskScenarioState])).1

/-- Witness for C9 at a vertically-degenerate-free but horizontally collapsed
input `[(1,2),(1,3)]`: zero horizontal scale, and a returned result. -/
theorem C9_degenerate_geometry_witness :
    normAx (initPositionState 4 3 2) Arrangement.Linear [(1, 2), (1, 3)] = 0 ∧
    (normalize_channel_positions (initPositionState 4 3 2) Arrangement.Linear
      [(1, 2), (1, 3)]).isSome = true := by
  have h := C9_degenerate_geometry (initPositionState 4 3 2) Arrangement.Linear
    [(1, 2), (1, 3)] (by simp)
  exact ⟨h.1 (by norm_num [coordMin, coordMax]), by rw [h.2.2]; rfl⟩

end Spiky
